import Mathlib

/-!
Verification of the stream-filter subsystem of nanopdf
(`src/nanopdf-rs/src/pdf/filter.rs`), shallowly embedded: bytes are `Nat`
values (below 256 where it matters), `Vec<u8>` is `List Nat`, and fallible
functions return `Except Error`.  The codecs implemented in the repository
(ASCII85, ASCIIHex, RunLength, CCITT placeholder, the predictor geometry and
the filter chain) are translated function by function; codecs delegating to
external crates (flate2, weezl, image, jpeg2k) enter only through an explicit
parameter record.
-/

set_option maxHeartbeats 1000000

namespace NanoPdf

/-- Error type of `crate::fitz::error`.  Modelled from the spec: the file
`src/fitz/error.rs` is not under `src/`; every error site in
`src/pdf/filter.rs` constructs `Error::Generic(String)` and the spec (section
7) describes error kinds rather than concrete variants, so only the `Generic`
constructor is modelled. -/
inductive Error where
  | generic : String → Error
deriving DecidableEq, Repr

/-- Rust `Result<T>` with the fitz error type, as used throughout `filter.rs`. -/
abbrev Result (α : Type) := Except Error α

/-- Rust `u8::is_ascii_whitespace`: horizontal tab, line feed, form feed,
carriage return, space. -/
def isAsciiWhitespace (b : Nat) : Bool :=
  b == 9 || b == 10 || b == 12 || b == 13 || b == 32

/-! ### ASCII85Decode / ASCII85Encode (filter.rs lines 233-330) -/

/-- The four big-endian bytes pushed by `decode_ascii85` when a five-digit
group completes: `(group >> 24) as u8` down to `group as u8`. -/
def flushGroup (group : Nat) : List Nat :=
  [group / 16777216 % 256, group / 65536 % 256, group / 256 % 256, group % 256]

/-- Tail handling of `decode_ascii85` (lines 277-286): a trailing partial
group of `count` digits is padded to five digits with the value 84 (letter u)
and `count - 1` bytes are emitted.  The 32-bit group wraps modulo 2^32. -/
def a85Finish (result : List Nat) (group count : Nat) : List Nat :=
  if 0 < count then
    let padded := (List.range (5 - count)).foldl (fun g _ => (g * 85 + 84) % 4294967296) group
    result ++ (List.range (count - 1)).map (fun i => padded / 2 ^ (24 - i * 8) % 256)
  else result

/-- The byte loop of `decode_ascii85` (lines 238-274) with the output
accumulator, current 32-bit group and digit count as explicit state:
whitespace is skipped, 126 (tilde) terminates, 122 (letter z) is four zero
bytes but only at a group boundary, any other byte must be a base-85 digit in
33..117 and is accumulated; every fifth digit flushes four output bytes. -/
def a85Go : List Nat → List Nat → Nat → Nat → Result (List Nat)
  | [], result, group, count => .ok (a85Finish result group count)
  | b :: rest, result, group, count =>
    if isAsciiWhitespace b then a85Go rest result group count
    else if b = 126 then .ok (a85Finish result group count)
    else if b = 122 then
      if count ≠ 0 then .error (.generic "Invalid z in ASCII85 stream")
      else a85Go rest (result ++ [0, 0, 0, 0]) group count
    else if 33 ≤ b ∧ b ≤ 117 then
      let g := (group * 85 + (b - 33)) % 4294967296
      if count + 1 = 5 then a85Go rest (result ++ flushGroup g) 0 0
      else a85Go rest result g (count + 1)
    else .error (.generic ("Invalid ASCII85 character: " ++ toString b))

/-- Rust `decode_ascii85` (filter.rs lines 233-289). -/
def decode_ascii85 (data : List Nat) : Result (List Nat) :=
  a85Go data [] 0 0

/-- The five base-85 digit bytes of a group, mirroring the digit loop of
`encode_ascii85` (lines 312-317): digits are produced least significant
first into slots 4 down to 0, each offset by 33 (the bang character). -/
def a85Digits (group : Nat) : List Nat :=
  let t1 := group / 85
  let t2 := t1 / 85
  let t3 := t2 / 85
  let t4 := t3 / 85
  [t4 % 85 + 33, t3 % 85 + 33, t2 % 85 + 33, t1 % 85 + 33, group % 85 + 33]

/-- Chunk loop of `encode_ascii85` (lines 295-324): four input bytes are
packed big-endian into a 32-bit group; an all-zero full chunk is emitted as
the single byte 122 (letter z); a full chunk yields all five digits; a final
partial chunk of n bytes (zero-padded into the group) yields the first n + 1
digits. -/
def a85EncGo : List Nat → List Nat
  | [] => []
  | [b0] => (a85Digits (b0 * 16777216)).take 2
  | [b0, b1] => (a85Digits (b0 * 16777216 + b1 * 65536)).take 3
  | [b0, b1, b2] => (a85Digits (b0 * 16777216 + b1 * 65536 + b2 * 256)).take 4
  | b0 :: b1 :: b2 :: b3 :: rest =>
    let group := b0 * 16777216 + b1 * 65536 + b2 * 256 + b3
    if group = 0 then 122 :: a85EncGo rest
    else a85Digits group ++ a85EncGo rest

/-- Rust `encode_ascii85` (lines 292-330); infallible in the source (always
returns Ok), so modelled as a pure function.  Output ends with the end marker
bytes 126, 62 (tilde, greater-than). -/
def encode_ascii85 (data : List Nat) : List Nat :=
  a85EncGo data ++ [126, 62]

/-! ### ASCIIHexDecode / ASCIIHexEncode (filter.rs lines 337-391) -/

/-- Hex digit value of a byte as matched in `decode_ascii_hex` (lines
352-357): decimal digits, uppercase A-F, lowercase a-f. -/
def hexDigit (b : Nat) : Option Nat :=
  if 48 ≤ b ∧ b ≤ 57 then some (b - 48)
  else if 65 ≤ b ∧ b ≤ 70 then some (b - 65 + 10)
  else if 97 ≤ b ∧ b ≤ 102 then some (b - 97 + 10)
  else none

/-- Exit path of `decode_ascii_hex` (lines 369-371): an odd pending high
nibble is emitted shifted left four bits (padded with a low nibble 0). -/
def hexFinish (result : List Nat) : Option Nat → List Nat
  | some high => result ++ [high * 16]
  | none => result

/-- The byte loop of `decode_ascii_hex` (lines 341-366): whitespace is
skipped, 62 (greater-than) terminates, a hex digit is paired with the pending
high nibble, anything else is an error. -/
def hexGo : List Nat → List Nat → Option Nat → Result (List Nat)
  | [], result, high => .ok (hexFinish result high)
  | b :: rest, result, high =>
    if isAsciiWhitespace b then hexGo rest result high
    else if b = 62 then .ok (hexFinish result high)
    else
      match hexDigit b with
      | none => .error (.generic ("Invalid hex character: " ++ toString b))
      | some nibble =>
        match high with
        | none => hexGo rest result (some nibble)
        | some h => hexGo rest (result ++ [h * 16 + nibble]) none

/-- Rust `decode_ascii_hex` (filter.rs lines 337-374). -/
def decode_ascii_hex (data : List Nat) : Result (List Nat) :=
  hexGo data [] none

/-- One input byte to two uppercase hex digit bytes (lines 380-385). -/
def hexEncByte (b : Nat) : List Nat :=
  let high := b / 16 % 16
  let low := b % 16
  [if high < 10 then 48 + high else 65 + high - 10,
   if low < 10 then 48 + low else 65 + low - 10]

/-- Rust `encode_ascii_hex` (lines 377-391); infallible in the source. -/
def encode_ascii_hex (data : List Nat) : List Nat :=
  (data.map hexEncByte).flatten ++ [62]

/-! ### RunLengthDecode / RunLengthEncode (filter.rs lines 398-478) -/

/-- Run scanner of `encode_run_length` (lines 439-444): extends the count `k`
of leading bytes equal to `byte` while the cap `k < 128` holds. -/
def runCount (byte : Nat) : List Nat → Nat → Nat
  | [], k => k
  | x :: rest, k => if x = byte ∧ k < 128 then runCount byte rest (k + 1) else k

/-- Three identical leading bytes: the literal-scan break test of line 457. -/
def run3 : List Nat → Bool
  | a :: b :: c :: _ => a == b && a == c
  | _ => false

/-- Literal scanner of `encode_run_length` (lines 455-464): length of the
literal record starting here, with `k` bytes already taken; it stops before a
run of three identical bytes, or right after the 128th byte, or at the end of
the input. -/
def litLen : List Nat → Nat → Nat
  | [], k => k
  | x :: rest, k =>
    if run3 (x :: rest) then k
    else if 128 ≤ k + 1 then k + 1
    else litLen rest (k + 1)

theorem le_runCount (byte : Nat) : ∀ (l : List Nat) (k : Nat), k ≤ runCount byte l k := by
  intro l
  induction l with
  | nil => intro k; simp [runCount]
  | cons x rest ih =>
    intro k
    simp only [runCount]
    by_cases h : x = byte ∧ k < 128
    · rw [if_pos h]; exact Nat.le_trans (Nat.le_succ k) (ih (k + 1))
    · rw [if_neg h]

theorem run3_runCount {b : Nat} {rest : List Nat} (h : run3 (b :: rest) = true) :
    2 ≤ runCount b (b :: rest) 0 := by
  match rest with
  | [] => simp [run3] at h
  | [c] => simp [run3] at h
  | c :: d :: t =>
    simp only [run3, Bool.and_eq_true, beq_iff_eq] at h
    simp only [runCount, if_pos (And.intro rfl (by omega : (0 : Nat) < 128)),
      if_pos (And.intro h.1.symm (by omega : (1 : Nat) < 128))]
    exact le_runCount b (d :: t) 2

theorem le_litLen : ∀ (l : List Nat) (k : Nat), k ≤ litLen l k := by
  intro l
  induction l with
  | nil => intro k; simp [litLen]
  | cons x rest ih =>
    intro k
    simp only [litLen]
    by_cases h1 : run3 (x :: rest) = true
    · rw [if_pos h1]
    · rw [if_neg h1]
      by_cases h2 : 128 ≤ k + 1
      · rw [if_pos h2]; omega
      · rw [if_neg h2]; exact Nat.le_trans (Nat.le_succ k) (ih (k + 1))

theorem litLen_pos {b : Nat} {rest : List Nat} (h : run3 (b :: rest) = false) :
    1 ≤ litLen (b :: rest) 0 := by
  simp only [litLen, h, Bool.false_eq_true, if_false]
  by_cases h2 : 128 ≤ (0 : Nat) + 1
  · rw [if_pos h2]
  · rw [if_neg h2]; exact le_litLen rest 1

/-- Record loop of `encode_run_length` (filter.rs lines 437-472): a run of two
or more identical bytes (capped at 128) becomes a repeat record
`(257 - run, byte)`; otherwise a literal record `(n - 1, bytes)` of `n` bytes
is emitted, scanned up to the next run of three or the 128-byte cap. -/
def rlEncodeGo (data : List Nat) : List Nat :=
  match data with
  | [] => []
  | b :: rest =>
    let run := runCount b (b :: rest) 0
    if h : 2 ≤ run then
      (257 - run) :: b :: rlEncodeGo ((b :: rest).drop run)
    else
      have hn : 1 ≤ litLen (b :: rest) 0 := by
        by_cases h3 : run3 (b :: rest) = true
        · exact absurd (run3_runCount h3) h
        · exact litLen_pos (by simpa using h3)
      let n := litLen (b :: rest) 0
      (n - 1) :: ((b :: rest).take n ++ rlEncodeGo ((b :: rest).drop n))
termination_by data.length
decreasing_by
  · simp only [List.length_drop, List.length_cons]
    omega
  · simp only [List.length_drop, List.length_cons]
    omega

/-- Rust `encode_run_length` (lines 433-478); infallible in the source.  The
end-of-data marker 128 is appended after the record loop. -/
def encode_run_length (data : List Nat) : List Nat :=
  rlEncodeGo data ++ [128]

/-- Record loop of `decode_run_length` (filter.rs lines 402-427) with the
output accumulator explicit: length byte 128 ends the stream, a length byte
below 128 copies the next `L + 1` bytes literally, a length byte above 128
repeats the single following byte `257 - L` times; running out of input
inside a record is an error. -/
def rlDecodeGo (data : List Nat) (result : List Nat) : Result (List Nat) :=
  match data with
  | [] => .ok result
  | l :: rest =>
    if l = 128 then .ok result
    else if l < 128 then
      if rest.length < l + 1 then
        .error (.generic "RunLengthDecode: unexpected end of data")
      else rlDecodeGo (rest.drop (l + 1)) (result ++ rest.take (l + 1))
    else
      match rest with
      | [] => .error (.generic "RunLengthDecode: unexpected end of data")
      | b :: rest2 => rlDecodeGo rest2 (result ++ List.replicate (257 - l) b)
termination_by data.length
decreasing_by
  · simp only [List.length_drop, List.length_cons]
    omega
  · simp only [List.length_cons]
    omega

/-- Rust `decode_run_length` (filter.rs lines 398-430). -/
def decode_run_length (data : List Nat) : Result (List Nat) :=
  rlDecodeGo data []

/-! ### FilterType and name mapping (filter.rs lines 13-70) -/

/-- PDF filter types (filter.rs lines 13-35). -/
inductive FilterType where
  | FlateDecode
  | LZWDecode
  | ASCII85Decode
  | ASCIIHexDecode
  | RunLengthDecode
  | CCITTFaxDecode
  | DCTDecode
  | JPXDecode
  | JBIG2Decode
  | Crypt
deriving DecidableEq, Repr, Fintype

/-- Rust `FilterType::from_name` (filter.rs lines 39-53). -/
def FilterType.from_name (name : String) : Option FilterType :=
  match name with
  | "FlateDecode" | "Fl" => some .FlateDecode
  | "LZWDecode" | "LZW" => some .LZWDecode
  | "ASCII85Decode" | "A85" => some .ASCII85Decode
  | "ASCIIHexDecode" | "AHx" => some .ASCIIHexDecode
  | "RunLengthDecode" | "RL" => some .RunLengthDecode
  | "CCITTFaxDecode" | "CCF" => some .CCITTFaxDecode
  | "DCTDecode" | "DCT" => some .DCTDecode
  | "JPXDecode" => some .JPXDecode
  | "JBIG2Decode" => some .JBIG2Decode
  | "Crypt" => some .Crypt
  | _ => none

/-- Rust `FilterType::to_name` (filter.rs lines 56-69). -/
def FilterType.to_name : FilterType → String
  | .FlateDecode => "FlateDecode"
  | .LZWDecode => "LZWDecode"
  | .ASCII85Decode => "ASCII85Decode"
  | .ASCIIHexDecode => "ASCIIHexDecode"
  | .RunLengthDecode => "RunLengthDecode"
  | .CCITTFaxDecode => "CCITTFaxDecode"
  | .DCTDecode => "DCTDecode"
  | .JPXDecode => "JPXDecode"
  | .JBIG2Decode => "JBIG2Decode"
  | .Crypt => "Crypt"

/-! ### Predictor geometry (filter.rs lines 718-734) -/

/-- Rust `FlateDecodeParams` (filter.rs lines 74-83); the fields are i32. -/
structure FlateDecodeParams where
  predictor : Int
  colors : Int
  bits_per_component : Int
  columns : Int
deriving DecidableEq, Repr

/-- The clamped color count of `apply_predictor_decode` (line 720):
`params.colors.max(1) as usize`. -/
def predColors (p : FlateDecodeParams) : Nat :=
  (max p.colors 1).toNat

/-- The clamped bit depth of `apply_predictor_decode` (line 721):
`params.bits_per_component.max(8) as usize`. -/
def predBits (p : FlateDecodeParams) : Nat :=
  (max p.bits_per_component 8).toNat

/-- The clamped column count of `apply_predictor_decode` (line 722):
`params.columns.max(1) as usize`. -/
def predColumns (p : FlateDecodeParams) : Nat :=
  (max p.columns 1).toNat

/-- `bytes_per_pixel` as computed by `apply_predictor_decode` (line 725):
`(colors * bits + 7) / 8` over the clamped values above. -/
def bytes_per_pixel (p : FlateDecodeParams) : Nat :=
  (predColors p * predBits p + 7) / 8

/-- `bytes_per_row` as computed by `apply_predictor_decode` (line 726):
`(colors * bits * columns + 7) / 8` over the clamped values above. -/
def bytes_per_row (p : FlateDecodeParams) : Nat :=
  (predColors p * predBits p * predColumns p + 7) / 8

/-! ### CCITTFaxDecode (filter.rs lines 100-134 and 485-550) -/

/-- Rust `CCITTFaxDecodeParams` (filter.rs lines 102-119). -/
structure CCITTFaxDecodeParams where
  k : Int
  end_of_line : Bool
  encoded_byte_align : Bool
  columns : Int
  rows : Int
  end_of_block : Bool
  black_is_1 : Bool
  damaged_rows_before_error : Int
deriving DecidableEq, Repr

/-- `CCITTFaxDecodeParams::default()` (filter.rs lines 121-134). -/
def CCITTFaxDecodeParams.default : CCITTFaxDecodeParams :=
  ⟨0, false, false, 1728, 0, true, false, 0⟩

/-- Rust `decode_ccitt_g4` (filter.rs lines 522-550).  In the source,
`decode_g4_row` unconditionally zero-fills the row buffer and returns Ok
(lines 593-603), so the row loop never breaks early and appends exactly
`total_rows` all-zero rows of `bytes_per_row` bytes each; the input bits are
never consumed by the placeholder. -/
def decode_ccitt_g4 (_data : List Nat) (width height : Nat) : Result (List Nat) :=
  let bytes_per_row := (width + 7) / 8
  let total_rows := if 0 < height then height else 1000
  .ok (List.replicate (bytes_per_row * total_rows) 0)

/-- Rust `decode_ccitt_fax` (filter.rs lines 485-519).  The i32-to-usize
casts are modelled with `Int.toNat`; the final `!byte` inversion on u8 is
`255 - b % 256`. -/
def decode_ccitt_fax (data : List Nat) (params : CCITTFaxDecodeParams) : Result (List Nat) :=
  let width := params.columns.toNat
  let height := if 0 < params.rows then params.rows.toNat else 0
  let bytes_per_row := (width + 7) / 8
  let estimated_rows := if 0 < height then height else data.length * 8 / max width 1
  let r0 :=
    if data.length = bytes_per_row * estimated_rows then Except.ok data
    else decode_ccitt_g4 data width height
  match r0 with
  | .error e => .error e
  | .ok result =>
    .ok (if params.black_is_1 then result else result.map (fun b => 255 - b % 256))

/-! ### FilterChain (filter.rs lines 882-941) -/

/-- The codecs of `filter.rs` that delegate to external crates (flate2 for
FlateDecode, weezl for LZWDecode, image for DCTDecode, jpeg2k and the
feature-gated stubs for JPXDecode and JBIG2Decode).  Their behavior is not
code of this repository, so the filter chain is parametrized over them;
`encodeFlate` additionally takes the compression level. -/
structure ExternalCodecs where
  decodeFlate : List Nat → Result (List Nat)
  encodeFlate : Nat → List Nat → Result (List Nat)
  decodeLZW : List Nat → Result (List Nat)
  encodeLZW : List Nat → Result (List Nat)
  decodeDCT : List Nat → Result (List Nat)
  decodeJPX : List Nat → Result (List Nat)
  decodeJBIG2 : List Nat → Result (List Nat)

/-- One step of `FilterChain::decode` (filter.rs lines 899-910): the decoder
selected by the filter type, with default (absent) parameters, Crypt being a
pass-through. -/
def filterDecodeStep (ext : ExternalCodecs) (f : FilterType) (data : List Nat) :
    Result (List Nat) :=
  match f with
  | .FlateDecode => ext.decodeFlate data
  | .LZWDecode => ext.decodeLZW data
  | .ASCII85Decode => decode_ascii85 data
  | .ASCIIHexDecode => decode_ascii_hex data
  | .RunLengthDecode => decode_run_length data
  | .CCITTFaxDecode => decode_ccitt_fax data CCITTFaxDecodeParams.default
  | .DCTDecode => ext.decodeDCT data
  | .JPXDecode => ext.decodeJPX data
  | .JBIG2Decode => ext.decodeJBIG2 data
  | .Crypt => .ok data

/-- One step of `FilterChain::encode` (filter.rs lines 918-937): the encoder
selected by the filter type; CCITTFax, DCT, JPX and JBIG2 abort the chain
with their fixed errors, Crypt is a pass-through. -/
def filterEncodeStep (ext : ExternalCodecs) (f : FilterType) (data : List Nat) :
    Result (List Nat) :=
  match f with
  | .FlateDecode => ext.encodeFlate 6 data
  | .LZWDecode => ext.encodeLZW data
  | .ASCII85Decode => .ok (encode_ascii85 data)
  | .ASCIIHexDecode => .ok (encode_ascii_hex data)
  | .RunLengthDecode => .ok (encode_run_length data)
  | .CCITTFaxDecode => .error (.generic "CCITTFaxEncode not supported")
  | .DCTDecode => .error (.generic "DCTEncode requires image dimensions")
  | .JPXDecode => .error (.generic "JPXEncode not supported")
  | .JBIG2Decode => .error (.generic "JBIG2Encode not supported")
  | .Crypt => .ok data

/-- The loop of `FilterChain::decode` (lines 897-913): each filter in turn
transforms the running buffer; an error aborts the whole chain. -/
def chainDecodeGo (ext : ExternalCodecs) : List FilterType → List Nat → Result (List Nat)
  | [], data => .ok data
  | f :: rest, data =>
    match filterDecodeStep ext f data with
    | .error e => .error e
    | .ok d2 => chainDecodeGo ext rest d2

/-- Rust `FilterChain::decode` with declared filter list `fs`: the filters
are applied in declared order. -/
def chainDecode (ext : ExternalCodecs) (fs : List FilterType) (data : List Nat) :
    Result (List Nat) :=
  chainDecodeGo ext fs data

/-- The loop of `FilterChain::encode` (lines 916-940) over an
already-reversed filter list. -/
def chainEncodeGo (ext : ExternalCodecs) : List FilterType → List Nat → Result (List Nat)
  | [], data => .ok data
  | f :: rest, data =>
    match filterEncodeStep ext f data with
    | .error e => .error e
    | .ok d2 => chainEncodeGo ext rest d2

/-- Rust `FilterChain::encode` with declared filter list `fs`: the filters
are applied in reverse declared order (`self.filters.iter().rev()`). -/
def chainEncode (ext : ExternalCodecs) (fs : List FilterType) (data : List Nat) :
    Result (List Nat) :=
  chainEncodeGo ext fs.reverse data

/-- A concrete instance for the external codecs used to state closed
counterexamples and witnesses on chains whose filters never invoke an
external crate: every external call fails with a marker error, so any run
that returns Ok provably never consulted an external codec. -/
def externalUnavailable : ExternalCodecs :=
  ⟨fun _ => .error (.generic "external codec"), fun _ _ => .error (.generic "external codec"),
   fun _ => .error (.generic "external codec"), fun _ => .error (.generic "external codec"),
   fun _ => .error (.generic "external codec"), fun _ => .error (.generic "external codec"),
   fun _ => .error (.generic "external codec")⟩

/-- An external-codec instance in which every external call succeeds and
returns the buffer unchanged; used only to instantiate hypotheses of
universally quantified theorems in witnesses. -/
def externalIdentity : ExternalCodecs :=
  ⟨fun d => .ok d, fun _ d => .ok d, fun d => .ok d, fun d => .ok d,
   fun d => .ok d, fun d => .ok d, fun d => .ok d⟩

instance {ε α : Type} [DecidableEq ε] [DecidableEq α] : DecidableEq (Except ε α) := fun x y =>
  match x, y with
  | .ok a, .ok b =>
    if h : a = b then .isTrue (by rw [h]) else .isFalse (fun hc => h (Except.ok.inj hc))
  | .error e, .error f =>
    if h : e = f then .isTrue (by rw [h]) else .isFalse (fun hc => h (Except.error.inj hc))
  | .ok _, .error _ => .isFalse (fun hc => Except.noConfusion hc)
  | .error _, .ok _ => .isFalse (fun hc => Except.noConfusion hc)

/-! ## C8: filter name mapping -/

/-- C8: for every FilterType variant v, from_name (to_name v) = some v; each
documented abbreviation resolves to the same variant as the corresponding
full name; to_name is injective, so the mapping is total and unambiguous in
both directions. -/
theorem filter_name_mapping :
    (∀ v : FilterType, FilterType.from_name v.to_name = some v) ∧
    (FilterType.from_name "Fl" = FilterType.from_name "FlateDecode" ∧
     FilterType.from_name "Fl" = some .FlateDecode ∧
     FilterType.from_name "LZW" = FilterType.from_name "LZWDecode" ∧
     FilterType.from_name "LZW" = some .LZWDecode ∧
     FilterType.from_name "A85" = FilterType.from_name "ASCII85Decode" ∧
     FilterType.from_name "A85" = some .ASCII85Decode ∧
     FilterType.from_name "AHx" = FilterType.from_name "ASCIIHexDecode" ∧
     FilterType.from_name "AHx" = some .ASCIIHexDecode ∧
     FilterType.from_name "RL" = FilterType.from_name "RunLengthDecode" ∧
     FilterType.from_name "RL" = some .RunLengthDecode ∧
     FilterType.from_name "CCF" = FilterType.from_name "CCITTFaxDecode" ∧
     FilterType.from_name "CCF" = some .CCITTFaxDecode ∧
     FilterType.from_name "DCT" = FilterType.from_name "DCTDecode" ∧
     FilterType.from_name "DCT" = some .DCTDecode) ∧
    (∀ v w : FilterType, v.to_name = w.to_name → v = w) := by
  refine ⟨fun v => ?_, by decide, fun v w => ?_⟩
  · cases v <;> rfl
  · cases v <;> cases w <;> simp [FilterType.to_name]

/-- Closed witness for C8, applying the mapping theorem at concrete variants
and discharging the injectivity hypothesis at a concrete name equality. -/
theorem filter_name_mapping_witness :
    FilterType.from_name (FilterType.to_name .ASCII85Decode) = some .ASCII85Decode ∧
    (FilterType.RunLengthDecode = FilterType.RunLengthDecode) :=
  ⟨filter_name_mapping.1 .ASCII85Decode,
   filter_name_mapping.2.2 .RunLengthDecode .RunLengthDecode rfl⟩

/-! ## C4: predictor geometry -/

/-- C4 counterexample: with predictor 2, colors 3, bits_per_component 1,
columns 1 (satisfying all of the claim's preconditions: colors at least 1,
bits in {1, 2, 4, 8, 16}, columns at least 1), the code computes
bytes_per_pixel = 3, not ceil(3 * 1 / 8) = 1 as claimed, because
`apply_predictor_decode` clamps bits_per_component up to 8. -/
theorem bytes_per_pixel_counterexample :
    ¬ (bytes_per_pixel ⟨2, 3, 1, 1⟩ = (3 * 1 + 7) / 8) := by decide

/-- C4 amended: for parameters with colors at least 1, bits_per_component in
{1, 2, 4, 8, 16} and columns at least 1, predictor application computes
bytes_per_pixel = ceil(colors * max(bits, 8) / 8) and bytes_per_row =
ceil(colors * max(bits, 8) * columns / 8); both are at least 1. -/
theorem predictor_geometry (p : FlateDecodeParams) (hc : 1 ≤ p.colors)
    (hb : p.bits_per_component = 1 ∨ p.bits_per_component = 2 ∨
      p.bits_per_component = 4 ∨ p.bits_per_component = 8 ∨ p.bits_per_component = 16)
    (hcol : 1 ≤ p.columns) :
    bytes_per_pixel p = (p.colors.toNat * max p.bits_per_component.toNat 8 + 7) / 8 ∧
    bytes_per_row p =
      (p.colors.toNat * max p.bits_per_component.toNat 8 * p.columns.toNat + 7) / 8 ∧
    1 ≤ bytes_per_pixel p ∧ 1 ≤ bytes_per_row p := by
  have e1 : predColors p = p.colors.toNat := by
    unfold predColors
    omega
  have e3 : predColumns p = p.columns.toNat := by
    unfold predColumns
    omega
  have e2 : predBits p = max p.bits_per_component.toNat 8 := by
    unfold predBits
    rcases hb with h | h | h | h | h <;> rw [h] <;> decide
  have hcn : 1 ≤ p.colors.toNat := by omega
  have hcoln : 1 ≤ p.columns.toNat := by omega
  have hbn : 8 ≤ max p.bits_per_component.toNat 8 := le_max_right _ _
  refine ⟨?_, ?_, ?_, ?_⟩
  · rw [bytes_per_pixel, e1, e2]
  · rw [bytes_per_row, e1, e2, e3]
  · rw [bytes_per_pixel, e1, e2]
    have h1 : 8 ≤ p.colors.toNat * max p.bits_per_component.toNat 8 :=
      le_trans hbn (Nat.le_mul_of_pos_left _ hcn)
    omega
  · rw [bytes_per_row, e1, e2, e3]
    have h1 : 8 ≤ p.colors.toNat * max p.bits_per_component.toNat 8 :=
      le_trans hbn (Nat.le_mul_of_pos_left _ hcn)
    have h2 : 8 * 1 ≤ p.colors.toNat * max p.bits_per_component.toNat 8 * p.columns.toNat :=
      Nat.mul_le_mul h1 hcoln
    omega

/-- Closed witness for C4 amended at predictor 10, colors 3, bits 2,
columns 5. -/
theorem predictor_geometry_witness :
    bytes_per_pixel ⟨10, 3, 2, 5⟩ = (3 * 8 + 7) / 8 ∧
    bytes_per_row ⟨10, 3, 2, 5⟩ = (3 * 8 * 5 + 7) / 8 ∧
    1 ≤ bytes_per_pixel ⟨10, 3, 2, 5⟩ ∧ 1 ≤ bytes_per_row ⟨10, 3, 2, 5⟩ :=
  predictor_geometry ⟨10, 3, 2, 5⟩ (by decide) (by decide) (by decide)

/-! ## C9: ASCIIHex decoding -/

theorem hexDigit_not_ws_not_gt {b d : Nat} (h : hexDigit b = some d) :
    isAsciiWhitespace b = false ∧ b ≠ 62 := by
  unfold hexDigit at h
  split_ifs at h with h1 h2 h3 <;> simp [isAsciiWhitespace] <;> omega

/-- C9: decode_ascii_hex skips ASCII whitespace, stops at the byte 62
(greater-than), pairs each hex digit (case-insensitive, via hexDigit) with
the pending high nibble, and pads an odd trailing digit with a low nibble of
0 (hexFinish); decoding the four bytes of the string 123 followed by the
terminator yields exactly the bytes 0x12, 0x30. -/
theorem ascii_hex_decode_spec :
    (∀ b rest result high, isAsciiWhitespace b = true →
      hexGo (b :: rest) result high = hexGo rest result high) ∧
    (∀ rest result high, hexGo (62 :: rest) result high = .ok (hexFinish result high)) ∧
    (∀ result high, hexGo [] result high = .ok (hexFinish result high)) ∧
    (∀ result, hexFinish result none = result) ∧
    (∀ result h, hexFinish result (some h) = result ++ [h * 16]) ∧
    (∀ b d rest result, hexDigit b = some d →
      hexGo (b :: rest) result none = hexGo rest result (some d)) ∧
    (∀ b d h rest result, hexDigit b = some d →
      hexGo (b :: rest) result (some h) = hexGo rest (result ++ [h * 16 + d]) none) ∧
    decode_ascii_hex [49, 50, 51, 62] = .ok [18, 48] := by
  refine ⟨fun b rest result high hws => ?_, fun rest result high => ?_,
    fun result high => rfl, fun result => rfl, fun result h => rfl,
    fun b d rest result hd => ?_, fun b d h rest result hd => ?_, by decide⟩
  · simp only [hexGo, hws, if_true]
  · rfl
  · obtain ⟨hws, hgt⟩ := hexDigit_not_ws_not_gt hd
    simp only [hexGo, hws, Bool.false_eq_true, if_false, hgt, hd]
  · obtain ⟨hws, hgt⟩ := hexDigit_not_ws_not_gt hd
    simp only [hexGo, hws, Bool.false_eq_true, if_false, hgt, hd]

/-- Closed witness for C9: the whitespace, pairing and padding clauses applied
at concrete bytes (space, the digits 4 and 8, a trailing digit). -/
theorem ascii_hex_decode_spec_witness :
    hexGo [32, 52] [] none = hexGo [52] [] none ∧
    hexGo [52, 56] [] none = hexGo [56] [] (some 4) ∧
    hexGo [56] [] (some 4) = hexGo [] ([] ++ [4 * 16 + 8]) none ∧
    hexGo [] [72] (some 3) = .ok (hexFinish [72] (some 3)) :=
  ⟨ascii_hex_decode_spec.1 32 [52] [] none (by decide),
   ascii_hex_decode_spec.2.2.2.2.2.1 52 4 [56] [] (by decide),
   ascii_hex_decode_spec.2.2.2.2.2.2.1 56 8 4 [] [] (by decide),
   ascii_hex_decode_spec.2.2.1 [72] (some 3)⟩

/-! ## C5: RunLength decode record semantics -/

theorem rlDecodeGo_acc (data : List Nat) (acc : List Nat) :
    rlDecodeGo data acc = Except.map (fun t => acc ++ t) (rlDecodeGo data []) := by
  match data with
  | [] => simp [rlDecodeGo, Except.map]
  | l :: rest =>
    rw [rlDecodeGo.eq_def]
    conv_rhs => rw [rlDecodeGo.eq_def]
    by_cases h1 : l = 128
    · simp [h1, Except.map]
    · simp only [h1, if_false]
      by_cases h2 : l < 128
      · simp only [h2, if_true]
        by_cases h3 : rest.length < l + 1
        · simp only [h3, if_true]
          rfl
        · simp only [h3, if_false, List.nil_append]
          rw [rlDecodeGo_acc (List.drop (l + 1) rest) (acc ++ List.take (l + 1) rest),
              rlDecodeGo_acc (List.drop (l + 1) rest) (List.take (l + 1) rest)]
          cases rlDecodeGo (List.drop (l + 1) rest) [] <;> simp [Except.map]
      · simp only [h2, if_false]
        cases rest with
        | nil => rfl
        | cons b rest2 =>
          simp only [List.nil_append]
          rw [rlDecodeGo_acc rest2 (acc ++ List.replicate (257 - l) b),
              rlDecodeGo_acc rest2 (List.replicate (257 - l) b)]
          cases rlDecodeGo rest2 [] <;> simp [Except.map]
termination_by data.length
decreasing_by
  · simp only [List.length_drop, List.length_cons]
    omega
  · simp only [List.length_drop, List.length_cons]
    omega
  · simp only [List.length_cons]
    omega
  · simp only [List.length_cons]
    omega

/-- C5: decode_run_length reads records as follows: a length byte equal to
128 ends the stream; a length byte L below 128 copies the next L + 1 input
bytes literally to the output and continues; a length byte L above 128
repeats the single following byte 257 - L times and continues; whenever a
record needs bytes beyond the end of the input, the whole decode is an
error. -/
theorem run_length_decode_records (L : Nat) (rest : List Nat) :
    (L = 128 → decode_run_length (L :: rest) = .ok []) ∧
    (L < 128 →
      (rest.length < L + 1 → ∃ e, decode_run_length (L :: rest) = .error e) ∧
      (L + 1 ≤ rest.length →
        decode_run_length (L :: rest) =
          Except.map (fun t => rest.take (L + 1) ++ t)
            (decode_run_length (rest.drop (L + 1))))) ∧
    (128 < L →
      (rest = [] → ∃ e, decode_run_length (L :: rest) = .error e) ∧
      (∀ b rest2, rest = b :: rest2 →
        decode_run_length (L :: rest) =
          Except.map (fun t => List.replicate (257 - L) b ++ t)
            (decode_run_length rest2))) := by
  refine ⟨fun h => ?_, fun h => ⟨fun hlen => ?_, fun hlen => ?_⟩,
    fun h => ⟨fun hnil => ?_, fun b rest2 hcons => ?_⟩⟩
  · rw [decode_run_length, rlDecodeGo.eq_def]
    simp [h]
  · rw [decode_run_length, rlDecodeGo.eq_def]
    refine ⟨.generic "RunLengthDecode: unexpected end of data", ?_⟩
    simp only [if_neg (by omega : ¬ L = 128), if_pos h, if_pos hlen]
  · rw [decode_run_length, rlDecodeGo.eq_def]
    simp only [if_neg (by omega : ¬ L = 128), if_pos h, if_neg (by omega : ¬ rest.length < L + 1)]
    rw [rlDecodeGo_acc, decode_run_length]
    simp
  · subst hnil
    rw [decode_run_length, rlDecodeGo.eq_def]
    refine ⟨.generic "RunLengthDecode: unexpected end of data", ?_⟩
    simp only [if_neg (by omega : ¬ L = 128), if_neg (by omega : ¬ L < 128)]
  · subst hcons
    rw [decode_run_length, rlDecodeGo.eq_def]
    simp only [if_neg (by omega : ¬ L = 128), if_neg (by omega : ¬ L < 128)]
    rw [rlDecodeGo_acc, decode_run_length]
    simp

/-- Closed witness for C5: all three record kinds and a truncation error,
obtained by applying the record theorem at concrete inputs. -/
theorem run_length_decode_records_witness :
    decode_run_length [128, 7, 7] = .ok [] ∧
    decode_run_length [1, 10, 20, 128] =
      Except.map (fun t => [10, 20].take 2 ++ t) (decode_run_length [128]) ∧
    decode_run_length [255, 9, 128] =
      Except.map (fun t => List.replicate 2 9 ++ t) (decode_run_length [128]) ∧
    (∃ e, decode_run_length [3, 1] = .error e) :=
  ⟨(run_length_decode_records 128 [7, 7]).1 rfl,
   ((run_length_decode_records 1 [10, 20, 128]).2.1 (by decide)).2 (by decide),
   ((run_length_decode_records 255 [9, 128]).2.2 (by decide)).2 9 [128] rfl,
   ((run_length_decode_records 3 [1]).2.1 (by decide)).1 (by decide)⟩

/-! ## Step lemmas for the ASCII85 and ASCIIHex decode loops -/

theorem a85Go_ws {b : Nat} (hws : isAsciiWhitespace b = true) (rest result : List Nat)
    (g c : Nat) : a85Go (b :: rest) result g c = a85Go rest result g c := by
  simp only [a85Go]
  rw [if_pos hws]

theorem a85Go_tilde (rest result : List Nat) (g c : Nat) :
    a85Go (126 :: rest) result g c = .ok (a85Finish result g c) := rfl

theorem a85Go_z_boundary (rest result : List Nat) (g : Nat) :
    a85Go (122 :: rest) result g 0 = a85Go rest (result ++ [0, 0, 0, 0]) g 0 := rfl

theorem a85Go_z_mid {c : Nat} (hc : c ≠ 0) (rest result : List Nat) (g : Nat) :
    a85Go (122 :: rest) result g c = .error (.generic "Invalid z in ASCII85 stream") := by
  simp only [a85Go]
  simp [isAsciiWhitespace, hc]

theorem a85Go_digit_acc {b c : Nat} (hd : 33 ≤ b ∧ b ≤ 117) (h5 : ¬ c + 1 = 5)
    (rest result : List Nat) (g : Nat) :
    a85Go (b :: rest) result g c =
      a85Go rest result ((g * 85 + (b - 33)) % 4294967296) (c + 1) := by
  have hws : ¬ isAsciiWhitespace b = true := by
    simp only [isAsciiWhitespace, Bool.or_eq_true, beq_iff_eq]
    omega
  simp only [a85Go]
  rw [if_neg hws, if_neg (by omega : ¬ b = 126), if_neg (by omega : ¬ b = 122), if_pos hd,
    if_neg h5]

theorem a85Go_digit_flush {b c : Nat} (hd : 33 ≤ b ∧ b ≤ 117) (h5 : c + 1 = 5)
    (rest result : List Nat) (g : Nat) :
    a85Go (b :: rest) result g c =
      a85Go rest (result ++ flushGroup ((g * 85 + (b - 33)) % 4294967296)) 0 0 := by
  have hws : ¬ isAsciiWhitespace b = true := by
    simp only [isAsciiWhitespace, Bool.or_eq_true, beq_iff_eq]
    omega
  simp only [a85Go]
  rw [if_neg hws, if_neg (by omega : ¬ b = 126), if_neg (by omega : ¬ b = 122), if_pos hd,
    if_pos h5]

theorem a85Go_bad {b : Nat} (hws : isAsciiWhitespace b = false) (h126 : ¬ b = 126)
    (h122 : ¬ b = 122) (hrange : ¬ (33 ≤ b ∧ b ≤ 117)) (rest result : List Nat) (g c : Nat) :
    a85Go (b :: rest) result g c =
      .error (.generic ("Invalid ASCII85 character: " ++ toString b)) := by
  simp only [a85Go]
  rw [if_neg (by simp [hws]), if_neg h126, if_neg h122, if_neg hrange]

theorem hexGo_ws {b : Nat} (hws : isAsciiWhitespace b = true) (rest result : List Nat)
    (high : Option Nat) : hexGo (b :: rest) result high = hexGo rest result high := by
  simp only [hexGo]
  rw [if_pos hws]

theorem hexGo_gt (rest result : List Nat) (high : Option Nat) :
    hexGo (62 :: rest) result high = .ok (hexFinish result high) := rfl

theorem hexGo_digit_none {b d : Nat} (hd : hexDigit b = some d) (rest result : List Nat) :
    hexGo (b :: rest) result none = hexGo rest result (some d) := by
  obtain ⟨hws, hgt⟩ := hexDigit_not_ws_not_gt hd
  simp only [hexGo]
  rw [if_neg (by simp [hws]), if_neg hgt, hd]

theorem hexGo_digit_some {b d h : Nat} (hd : hexDigit b = some d) (rest result : List Nat) :
    hexGo (b :: rest) result (some h) = hexGo rest (result ++ [h * 16 + d]) none := by
  obtain ⟨hws, hgt⟩ := hexDigit_not_ws_not_gt hd
  simp only [hexGo]
  rw [if_neg (by simp [hws]), if_neg hgt, hd]

theorem hexGo_bad {b : Nat} (hws : isAsciiWhitespace b = false) (hgt : ¬ b = 62)
    (hd : hexDigit b = none) (rest result : List Nat) (high : Option Nat) :
    hexGo (b :: rest) result high =
      .error (.generic ("Invalid hex character: " ++ toString b)) := by
  simp only [hexGo]
  rw [if_neg (by simp [hws]), if_neg hgt, hd]

/-! ## C10: everything after the first tilde is ignored -/

theorem a85Go_tilde_trunc (pre : List Nat) :
    ∀ suf result g c, 126 ∉ pre →
      a85Go (pre ++ 126 :: suf) result g c = a85Go (pre ++ [126]) result g c := by
  induction pre with
  | nil =>
    intro suf result g c _
    rfl
  | cons a pre ih =>
    intro suf result g c hmem
    have ha : ¬ a = 126 := fun h => hmem (h ▸ List.mem_cons_self a pre)
    have hmem2 : 126 ∉ pre := fun h => hmem (List.mem_cons_of_mem a h)
    simp only [List.cons_append]
    by_cases haws : isAsciiWhitespace a = true
    · rw [a85Go_ws haws, a85Go_ws haws]
      exact ih suf result g c hmem2
    · by_cases hz : a = 122
      · subst hz
        by_cases hc : c = 0
        · subst hc
          rw [a85Go_z_boundary, a85Go_z_boundary]
          exact ih suf (result ++ [0, 0, 0, 0]) g 0 hmem2
        · rw [a85Go_z_mid hc, a85Go_z_mid hc]
      · by_cases hd : 33 ≤ a ∧ a ≤ 117
        · by_cases h5 : c + 1 = 5
          · rw [a85Go_digit_flush hd h5, a85Go_digit_flush hd h5]
            exact ih suf (result ++ flushGroup ((g * 85 + (a - 33)) % 4294967296)) 0 0 hmem2
          · rw [a85Go_digit_acc hd h5, a85Go_digit_acc hd h5]
            exact ih suf result ((g * 85 + (a - 33)) % 4294967296) (c + 1) hmem2
        · have hwsf : isAsciiWhitespace a = false := by simpa using haws
          rw [a85Go_bad hwsf ha hz hd, a85Go_bad hwsf ha hz hd]

/-- C10: for every input to decode_ascii85 containing the byte 126 (tilde),
the result depends only on the bytes before the first tilde; bytes after it
never cause an error and never contribute output. -/
theorem ascii85_ignores_after_tilde (pre suf : List Nat) (h : 126 ∉ pre) :
    decode_ascii85 (pre ++ 126 :: suf) = decode_ascii85 (pre ++ [126]) :=
  a85Go_tilde_trunc pre suf [] 0 0 h

/-- Closed witness for C10: two digit bytes before the tilde, an invalid
byte 123 (left brace) after it. -/
theorem ascii85_ignores_after_tilde_witness :
    decode_ascii85 ([33, 34] ++ 126 :: [123]) = decode_ascii85 ([33, 34] ++ [126]) :=
  ascii85_ignores_after_tilde [33, 34] [123] (by decide)

/-! ## C6: invalid inputs are rejected, never partially decoded -/

/-- Count of base-85 digit bytes (range 33..117) in a list; every such byte
advances the five-digit group position of `a85Go` by one. -/
def a85DigitCount (l : List Nat) : Nat :=
  l.countP (fun b => decide (33 ≤ b ∧ b ≤ 117))

theorem a85DigitCount_cons_digit {a : Nat} (hd : 33 ≤ a ∧ a ≤ 117) (l : List Nat) :
    a85DigitCount (a :: l) = a85DigitCount l + 1 := by
  simp [a85DigitCount, List.countP_cons, hd]

theorem a85DigitCount_cons_nondigit {a : Nat} (hd : ¬ (33 ≤ a ∧ a ≤ 117)) (l : List Nat) :
    a85DigitCount (a :: l) = a85DigitCount l := by
  simp [a85DigitCount, List.countP_cons, hd]

theorem a85Go_invalid_error (b : Nat) (hws : isAsciiWhitespace b = false)
    (h126 : ¬ b = 126) (h122 : ¬ b = 122) (hrange : ¬ (33 ≤ b ∧ b ≤ 117)) (pre : List Nat) :
    ∀ suf result g c, 126 ∉ pre →
      ∃ e, a85Go (pre ++ b :: suf) result g c = .error e := by
  induction pre with
  | nil =>
    intro suf result g c _
    exact ⟨_, a85Go_bad hws h126 h122 hrange suf result g c⟩
  | cons a pre ih =>
    intro suf result g c hmem
    have ha : ¬ a = 126 := fun h => hmem (h ▸ List.mem_cons_self a pre)
    have hmem2 : 126 ∉ pre := fun h => hmem (List.mem_cons_of_mem a h)
    simp only [List.cons_append]
    by_cases haws : isAsciiWhitespace a = true
    · rw [a85Go_ws haws]
      exact ih suf result g c hmem2
    · by_cases hz : a = 122
      · subst hz
        by_cases hc : c = 0
        · subst hc
          rw [a85Go_z_boundary]
          exact ih suf (result ++ [0, 0, 0, 0]) g 0 hmem2
        · rw [a85Go_z_mid hc]
          exact ⟨_, rfl⟩
      · by_cases hd : 33 ≤ a ∧ a ≤ 117
        · by_cases h5 : c + 1 = 5
          · rw [a85Go_digit_flush hd h5]
            exact ih suf (result ++ flushGroup ((g * 85 + (a - 33)) % 4294967296)) 0 0 hmem2
          · rw [a85Go_digit_acc hd h5]
            exact ih suf result ((g * 85 + (a - 33)) % 4294967296) (c + 1) hmem2
        · have hwsf : isAsciiWhitespace a = false := by simpa using haws
          rw [a85Go_bad hwsf ha hz hd]
          exact ⟨_, rfl⟩

theorem a85Go_z_midgroup (pre : List Nat) :
    ∀ suf result g c, 126 ∉ pre → (c + a85DigitCount pre) % 5 ≠ 0 →
      ∃ e, a85Go (pre ++ 122 :: suf) result g c = .error e := by
  induction pre with
  | nil =>
    intro suf result g c _ hcount
    have hc : c ≠ 0 := by
      simp only [a85DigitCount, List.countP_nil, Nat.add_zero] at hcount
      omega
    exact ⟨_, a85Go_z_mid hc suf result g⟩
  | cons a pre ih =>
    intro suf result g c hmem hcount
    have ha : ¬ a = 126 := fun h => hmem (h ▸ List.mem_cons_self a pre)
    have hmem2 : 126 ∉ pre := fun h => hmem (List.mem_cons_of_mem a h)
    simp only [List.cons_append]
    by_cases haws : isAsciiWhitespace a = true
    · have hnd : ¬ (33 ≤ a ∧ a ≤ 117) := by
        simp only [isAsciiWhitespace, Bool.or_eq_true, beq_iff_eq] at haws
        omega
      rw [a85DigitCount_cons_nondigit hnd] at hcount
      rw [a85Go_ws haws]
      exact ih suf result g c hmem2 hcount
    · by_cases hz : a = 122
      · have hnd : ¬ (33 ≤ a ∧ a ≤ 117) := by omega
        rw [a85DigitCount_cons_nondigit hnd] at hcount
        subst hz
        by_cases hc : c = 0
        · subst hc
          rw [a85Go_z_boundary]
          exact ih suf (result ++ [0, 0, 0, 0]) g 0 hmem2 hcount
        · rw [a85Go_z_mid hc]
          exact ⟨_, rfl⟩
      · by_cases hd : 33 ≤ a ∧ a ≤ 117
        · rw [a85DigitCount_cons_digit hd] at hcount
          by_cases h5 : c + 1 = 5
          · rw [a85Go_digit_flush hd h5]
            exact ih suf (result ++ flushGroup ((g * 85 + (a - 33)) % 4294967296)) 0 0 hmem2
              (by omega)
          · rw [a85Go_digit_acc hd h5]
            exact ih suf result ((g * 85 + (a - 33)) % 4294967296) (c + 1) hmem2 (by omega)
        · have hwsf : isAsciiWhitespace a = false := by simpa using haws
          rw [a85Go_bad hwsf ha hz hd]
          exact ⟨_, rfl⟩

theorem hexGo_invalid_error (b : Nat) (hws : isAsciiWhitespace b = false)
    (hgt : ¬ b = 62) (hhex : hexDigit b = none) (pre : List Nat) :
    ∀ suf result high, 62 ∉ pre →
      ∃ e, hexGo (pre ++ b :: suf) result high = .error e := by
  induction pre with
  | nil =>
    intro suf result high _
    exact ⟨_, hexGo_bad hws hgt hhex suf result high⟩
  | cons a pre ih =>
    intro suf result high hmem
    have ha : ¬ a = 62 := fun h => hmem (h ▸ List.mem_cons_self a pre)
    have hmem2 : 62 ∉ pre := fun h => hmem (List.mem_cons_of_mem a h)
    simp only [List.cons_append]
    by_cases haws : isAsciiWhitespace a = true
    · rw [hexGo_ws haws]
      exact ih suf result high hmem2
    · cases hda : hexDigit a with
      | none =>
        have hwsf : isAsciiWhitespace a = false := by simpa using haws
        rw [hexGo_bad hwsf ha hda]
        exact ⟨_, rfl⟩
      | some nib =>
        cases high with
        | none =>
          rw [hexGo_digit_none hda]
          exact ih suf result (some nib) hmem2
        | some h =>
          rw [hexGo_digit_some hda]
          exact ih suf (result ++ [h * 16 + nib]) none hmem2

/-- C6: decode_ascii85 errors (never returns a partial buffer) on every input
holding, before any tilde, a non-whitespace byte outside 33..117 other than
122 (letter z), or a 122 when the number of base-85 digits consumed so far is
not a multiple of five (one to four bytes of the current group pending); and
decode_ascii_hex errors on every input holding, before any 62 (greater-than)
terminator, a non-whitespace non-hex-digit byte. -/
theorem invalid_input_rejection :
    (∀ pre b suf, 126 ∉ pre → isAsciiWhitespace b = false → ¬ b = 126 → ¬ b = 122 →
      ¬ (33 ≤ b ∧ b ≤ 117) → ∃ e, decode_ascii85 (pre ++ b :: suf) = .error e) ∧
    (∀ pre suf, 126 ∉ pre → a85DigitCount pre % 5 ≠ 0 →
      ∃ e, decode_ascii85 (pre ++ 122 :: suf) = .error e) ∧
    (∀ pre b suf, 62 ∉ pre → isAsciiWhitespace b = false → ¬ b = 62 → hexDigit b = none →
      ∃ e, decode_ascii_hex (pre ++ b :: suf) = .error e) := by
  refine ⟨fun pre b suf hmem hws h126 h122 hrange => ?_, fun pre suf hmem hcount => ?_,
    fun pre b suf hmem hws hgt hhex => ?_⟩
  · exact a85Go_invalid_error b hws h126 h122 hrange pre suf [] 0 0 hmem
  · exact a85Go_z_midgroup pre suf [] 0 0 hmem (by simpa using hcount)
  · exact hexGo_invalid_error b hws hgt hhex pre suf [] none hmem

/-- Closed witness for C6: the invalid byte 123 (left brace) after the bytes
of Hello, the byte z after three digits (abc), and the non-hex byte G after
two hex digits. -/
theorem invalid_input_rejection_witness :
    (∃ e, decode_ascii85 ([72, 101, 108, 108, 111] ++ 123 :: [126, 62]) = .error e) ∧
    (∃ e, decode_ascii85 ([97, 98, 99] ++ 122 :: [126, 62]) = .error e) ∧
    (∃ e, decode_ascii_hex ([52, 56] ++ 71 :: [62]) = .error e) :=
  ⟨invalid_input_rejection.1 [72, 101, 108, 108, 111] 123 [126, 62] (by decide) (by decide)
      (by decide) (by decide) (by decide),
   invalid_input_rejection.2.1 [97, 98, 99] [126, 62] (by decide) (by decide),
   invalid_input_rejection.2.2 [52, 56] 71 [62] (by decide) (by decide) (by decide) (by decide)⟩

/-! ## C1: two-filter chain composition order -/

/-- C1 counterexample: the claim states that for every two-filter chain
[A, B] and every input x, FilterChain::decode(x) equals A.decode(B.decode(x)).
Instantiated with A = ASCIIHexDecode, B = ASCII85Decode (two codecs
implemented entirely inside the repository, so the external-codec record is
never consulted) and the input bytes of the string 7A>, the chain decode
yields ok [0, 0, 0, 0] (A is applied first, in declared order), while
A.decode(B.decode(x)) is an error, refuting the claimed composition. -/
theorem chain_decode_claim_counterexample :
    chainDecode externalUnavailable [.ASCIIHexDecode, .ASCII85Decode] [55, 65, 62] ≠
      (decode_ascii85 [55, 65, 62]).bind (fun y => decode_ascii_hex y) := by
  decide

/-- C1 amended: for every two-filter chain [A, B] (over any behavior of the
external codecs) and every input x, FilterChain::decode(x) equals
B.decode(A.decode(x)) — the filters are applied in declared order, A first —
and FilterChain::encode(x) equals A.encode(B.encode(x)) — the filters are
applied in reverse declared order, exactly as the claim states for encode. -/
theorem chain_two_filter_order (ext : ExternalCodecs) (A B : FilterType) (x : List Nat) :
    chainDecode ext [A, B] x =
      (filterDecodeStep ext A x).bind (fun y => filterDecodeStep ext B y) ∧
    chainEncode ext [A, B] x =
      (filterEncodeStep ext B x).bind (fun y => filterEncodeStep ext A y) := by
  constructor
  · rw [chainDecode]
    simp only [chainDecodeGo]
    cases filterDecodeStep ext A x with
    | error e => rfl
    | ok y =>
      simp only [Except.bind]
      cases filterDecodeStep ext B y <;> rfl
  · rw [chainEncode, (by rfl : ([A, B] : List FilterType).reverse = [B, A])]
    simp only [chainEncodeGo]
    cases filterEncodeStep ext B x with
    | error e => rfl
    | ok y =>
      simp only [Except.bind]
      cases filterEncodeStep ext A y <;> rfl

/-! ## C7: chains containing CCITTFax, DCT, JPX or JBIG2 cannot encode -/

/-- The four filter types whose chain encode has no defined semantics. -/
def unsupportedEncodeFilters : List FilterType :=
  [.CCITTFaxDecode, .DCTDecode, .JPXDecode, .JBIG2Decode]

/-- The four fixed not-supported errors of `FilterChain::encode` (filter.rs
lines 924-935), the Unsupported kind of the error taxonomy: none of them is a
malformed-input message. -/
def unsupportedEncodeErrors : List Error :=
  [.generic "CCITTFaxEncode not supported", .generic "DCTEncode requires image dimensions",
   .generic "JPXEncode not supported", .generic "JBIG2Encode not supported"]

theorem chainEncodeGo_unsupported_error (ext : ExternalCodecs) :
    ∀ (fs : List FilterType) (data : List Nat),
      (∃ f ∈ fs, f ∈ unsupportedEncodeFilters) →
      ∃ e, chainEncodeGo ext fs data = .error e := by
  intro fs
  induction fs with
  | nil =>
    intro data hmem
    obtain ⟨f, hf, _⟩ := hmem
    exact absurd hf (List.not_mem_nil f)
  | cons g rest ih =>
    intro data hmem
    by_cases hg : g ∈ unsupportedEncodeFilters
    · fin_cases hg <;> exact ⟨_, rfl⟩
    · obtain ⟨f, hf, hfu⟩ := hmem
      have hfr : f ∈ rest := by
        cases List.mem_cons.mp hf with
        | inl h => exact absurd (h ▸ hfu) hg
        | inr h => exact h
      simp only [chainEncodeGo]
      cases hstep : filterEncodeStep ext g data with
      | error e => exact ⟨e, rfl⟩
      | ok d2 => exact ih d2 ⟨f, hfr, hfu⟩

theorem chainEncodeGo_unsupported_kind (ext : ExternalCodecs)
    (hflate : ∀ n d, ∃ r, ext.encodeFlate n d = .ok r)
    (hlzw : ∀ d, ∃ r, ext.encodeLZW d = .ok r) :
    ∀ (fs : List FilterType) (data : List Nat),
      (∃ f ∈ fs, f ∈ unsupportedEncodeFilters) →
      ∃ e ∈ unsupportedEncodeErrors, chainEncodeGo ext fs data = .error e := by
  intro fs
  induction fs with
  | nil =>
    intro data hmem
    obtain ⟨f, hf, _⟩ := hmem
    exact absurd hf (List.not_mem_nil f)
  | cons g rest ih =>
    intro data hmem
    by_cases hg : g ∈ unsupportedEncodeFilters
    · fin_cases hg <;> exact ⟨_, by decide, rfl⟩
    · obtain ⟨f, hf, hfu⟩ := hmem
      have hfr : f ∈ rest := by
        cases List.mem_cons.mp hf with
        | inl h => exact absurd (h ▸ hfu) hg
        | inr h => exact h
      simp only [chainEncodeGo]
      cases g with
      | FlateDecode =>
        obtain ⟨r, hr⟩ := hflate 6 data
        rw [(by rfl : filterEncodeStep ext FilterType.FlateDecode data = ext.encodeFlate 6 data),
          hr]
        exact ih r ⟨f, hfr, hfu⟩
      | LZWDecode =>
        obtain ⟨r, hr⟩ := hlzw data
        rw [(by rfl : filterEncodeStep ext FilterType.LZWDecode data = ext.encodeLZW data), hr]
        exact ih r ⟨f, hfr, hfu⟩
      | ASCII85Decode => exact ih _ ⟨f, hfr, hfu⟩
      | ASCIIHexDecode => exact ih _ ⟨f, hfr, hfu⟩
      | RunLengthDecode => exact ih _ ⟨f, hfr, hfu⟩
      | CCITTFaxDecode => exact absurd (by decide) hg
      | DCTDecode => exact absurd (by decide) hg
      | JPXDecode => exact absurd (by decide) hg
      | JBIG2Decode => exact absurd (by decide) hg
      | Crypt => exact ih _ ⟨f, hfr, hfu⟩

/-- C7: for every filter chain containing CCITTFaxDecode, DCTDecode,
JPXDecode or JBIG2Decode and every input buffer, FilterChain::encode returns
an error (over any behavior of the external codecs); and whenever the
external flate and LZW encoders are total — as the flate2 and weezl in-memory
encoders are — the error is one of the four fixed not-supported messages,
distinct from every malformed-input error. -/
theorem chain_encode_unsupported (ext : ExternalCodecs) (fs : List FilterType)
    (data : List Nat) (hmem : ∃ f ∈ fs, f ∈ unsupportedEncodeFilters) :
    (∃ e, chainEncode ext fs data = .error e) ∧
    ((∀ n d, ∃ r, ext.encodeFlate n d = .ok r) → (∀ d, ∃ r, ext.encodeLZW d = .ok r) →
      ∃ e ∈ unsupportedEncodeErrors, chainEncode ext fs data = .error e) := by
  have hmemr : ∃ f ∈ fs.reverse, f ∈ unsupportedEncodeFilters := by
    obtain ⟨f, hf, hfu⟩ := hmem
    exact ⟨f, List.mem_reverse.mpr hf, hfu⟩
  exact ⟨chainEncodeGo_unsupported_error ext fs.reverse data hmemr,
    fun hflate hlzw => chainEncodeGo_unsupported_kind ext hflate hlzw fs.reverse data hmemr⟩

/-- Closed witness for C7: the chain [ASCII85Decode, DCTDecode] with total
external encoders on a concrete buffer. -/
theorem chain_encode_unsupported_witness :
    (∃ e, chainEncode externalIdentity [.ASCII85Decode, .DCTDecode] [1, 2] = .error e) ∧
    (∃ e ∈ unsupportedEncodeErrors,
      chainEncode externalIdentity [.ASCII85Decode, .DCTDecode] [1, 2] = .error e) := by
  have h := chain_encode_unsupported externalIdentity [.ASCII85Decode, .DCTDecode] [1, 2]
    ⟨.DCTDecode, by decide, by decide⟩
  exact ⟨h.1, h.2 (fun n d => ⟨d, rfl⟩) (fun d => ⟨d, rfl⟩)⟩

/-! ## C3: RunLength round trip -/

theorem runCount_le_128 (byte : Nat) :
    ∀ (l : List Nat) (k : Nat), k ≤ 128 → runCount byte l k ≤ 128 := by
  intro l
  induction l with
  | nil =>
    intro k hk
    simpa [runCount] using hk
  | cons x rest ih =>
    intro k hk
    simp only [runCount]
    by_cases h : x = byte ∧ k < 128
    · rw [if_pos h]
      exact ih (k + 1) (by omega)
    · rw [if_neg h]
      exact hk

theorem runCount_take_replicate (byte : Nat) :
    ∀ (l : List Nat) (k : Nat),
      runCount byte l k - k ≤ l.length ∧
      l.take (runCount byte l k - k) = List.replicate (runCount byte l k - k) byte := by
  intro l
  induction l with
  | nil =>
    intro k
    simp [runCount]
  | cons x rest ih =>
    intro k
    simp only [runCount]
    by_cases h : x = byte ∧ k < 128
    · rw [if_pos h]
      obtain ⟨ih1, ih2⟩ := ih (k + 1)
      have hk : k + 1 ≤ runCount byte rest (k + 1) := le_runCount byte rest (k + 1)
      have heq : runCount byte rest (k + 1) - k = (runCount byte rest (k + 1) - (k + 1)) + 1 := by
        omega
      constructor
      · simp only [List.length_cons]
        omega
      · rw [heq, List.take_succ_cons, ih2, h.1, List.replicate_succ]
    · rw [if_neg h]
      simp

theorem litLen_le_128 : ∀ (l : List Nat) (k : Nat), k < 128 → litLen l k ≤ 128 := by
  intro l
  induction l with
  | nil =>
    intro k hk
    simp only [litLen]
    omega
  | cons x rest ih =>
    intro k hk
    simp only [litLen]
    by_cases h1 : run3 (x :: rest) = true
    · rw [if_pos h1]
      omega
    · rw [if_neg h1]
      by_cases h2 : 128 ≤ k + 1
      · rw [if_pos h2]
        omega
      · rw [if_neg h2]
        exact ih (k + 1) (by omega)

theorem litLen_le_length : ∀ (l : List Nat) (k : Nat), litLen l k ≤ k + l.length := by
  intro l
  induction l with
  | nil =>
    intro k
    simp [litLen]
  | cons x rest ih =>
    intro k
    simp only [litLen, List.length_cons]
    by_cases h1 : run3 (x :: rest) = true
    · rw [if_pos h1]
      omega
    · rw [if_neg h1]
      by_cases h2 : 128 ≤ k + 1
      · rw [if_pos h2]
        omega
      · rw [if_neg h2]
        have := ih (k + 1)
        omega

theorem rl_roundtrip_go (data : List Nat) (acc : List Nat) :
    rlDecodeGo (rlEncodeGo data ++ [128]) acc = .ok (acc ++ data) := by
  match data with
  | [] =>
    rw [rlEncodeGo, List.nil_append, rlDecodeGo.eq_def]
    simp
  | b :: rest =>
    rw [rlEncodeGo]
    by_cases h : 2 ≤ runCount b (b :: rest) 0
    · rw [dif_pos h]
      have hle : runCount b (b :: rest) 0 ≤ 128 := runCount_le_128 b (b :: rest) 0 (by omega)
      obtain ⟨htlen, htake⟩ := runCount_take_replicate b (b :: rest) 0
      simp only [Nat.sub_zero] at htlen htake
      rw [List.cons_append, List.cons_append, rlDecodeGo.eq_def]
      dsimp only
      rw [if_neg (by omega : ¬ 257 - runCount b (b :: rest) 0 = 128),
        if_neg (by omega : ¬ 257 - runCount b (b :: rest) 0 < 128)]
      have h257 : 257 - (257 - runCount b (b :: rest) 0) = runCount b (b :: rest) 0 := by
        omega
      rw [h257]
      rw [rl_roundtrip_go (List.drop (runCount b (b :: rest) 0) (b :: rest))
        (acc ++ List.replicate (runCount b (b :: rest) 0) b)]
      rw [← htake, List.append_assoc, List.take_append_drop]
    · rw [dif_neg h]
      have hrun3 : run3 (b :: rest) = false := by
        cases h3 : run3 (b :: rest) with
        | false => rfl
        | true => exact absurd (run3_runCount h3) h
      have hn1 : 1 ≤ litLen (b :: rest) 0 := litLen_pos hrun3
      have hn128 : litLen (b :: rest) 0 ≤ 128 := litLen_le_128 (b :: rest) 0 (by omega)
      have hnlen : litLen (b :: rest) 0 ≤ (b :: rest).length := by
        have := litLen_le_length (b :: rest) 0
        omega
      have hlentake : (List.take (litLen (b :: rest) 0) (b :: rest)).length =
          litLen (b :: rest) 0 := by
        rw [List.length_take]
        omega
      rw [List.cons_append, List.append_assoc, rlDecodeGo.eq_def]
      dsimp only
      rw [if_neg (by omega : ¬ litLen (b :: rest) 0 - 1 = 128),
        if_pos (by omega : litLen (b :: rest) 0 - 1 < 128)]
      have hsub : litLen (b :: rest) 0 - 1 + 1 = litLen (b :: rest) 0 := by
        omega
      rw [hsub]
      rw [if_neg (by
        rw [List.length_append, hlentake]
        omega)]
      rw [List.take_left' hlentake, List.drop_left' hlentake]
      rw [rl_roundtrip_go (List.drop (litLen (b :: rest) 0) (b :: rest))
        (acc ++ List.take (litLen (b :: rest) 0) (b :: rest))]
      rw [List.append_assoc, List.take_append_drop]
termination_by data.length
decreasing_by
  · simp only [List.length_drop, List.length_cons]
    omega
  · simp only [List.length_drop, List.length_cons]
    omega

/-- C3: for every byte buffer (including the empty buffer and buffers whose
runs exceed 128 identical bytes, which force multiple repeat records),
decode_run_length (encode_run_length b) succeeds and returns exactly b, and
the encoder output always ends with the end-of-data marker byte 128. -/
theorem run_length_roundtrip :
    (∀ data : List Nat, decode_run_length (encode_run_length data) = .ok data) ∧
    (∀ data : List Nat, (encode_run_length data).getLast? = some 128) := by
  constructor
  · intro data
    have h := rl_roundtrip_go data []
    rw [List.nil_append] at h
    rw [decode_run_length, encode_run_length]
    exact h
  · intro data
    rw [encode_run_length]
    exact List.getLast?_concat _

/-! ## C2: ASCII85 round trip -/

theorem a85Go_digit_step_mod (x c : Nat) (rest result : List Nat) (g : Nat)
    (hc : ¬ c + 1 = 5) :
    a85Go ((x % 85 + 33) :: rest) result g c =
      a85Go rest result ((g * 85 + x % 85) % 4294967296) (c + 1) := by
  rw [a85Go_digit_acc
    (show 33 ≤ x % 85 + 33 ∧ x % 85 + 33 ≤ 117 from ⟨by omega, by omega⟩) hc]
  simp only [Nat.add_sub_cancel]

theorem a85Go_digit_flush_mod (x c : Nat) (rest result : List Nat) (g : Nat)
    (hc : c + 1 = 5) :
    a85Go ((x % 85 + 33) :: rest) result g c =
      a85Go rest (result ++ flushGroup ((g * 85 + x % 85) % 4294967296)) 0 0 := by
  rw [a85Go_digit_flush
    (show 33 ≤ x % 85 + 33 ∧ x % 85 + 33 ≤ 117 from ⟨by omega, by omega⟩) hc]
  simp only [Nat.add_sub_cancel]

theorem a85Go_dstep0 (x : Nat) (rest result : List Nat) (g : Nat) :
    a85Go ((x % 85 + 33) :: rest) result g 0 =
      a85Go rest result ((g * 85 + x % 85) % 4294967296) 1 :=
  a85Go_digit_step_mod x 0 rest result g (by decide)

theorem a85Go_dstep1 (x : Nat) (rest result : List Nat) (g : Nat) :
    a85Go ((x % 85 + 33) :: rest) result g 1 =
      a85Go rest result ((g * 85 + x % 85) % 4294967296) 2 :=
  a85Go_digit_step_mod x 1 rest result g (by decide)

theorem a85Go_dstep2 (x : Nat) (rest result : List Nat) (g : Nat) :
    a85Go ((x % 85 + 33) :: rest) result g 2 =
      a85Go rest result ((g * 85 + x % 85) % 4294967296) 3 :=
  a85Go_digit_step_mod x 2 rest result g (by decide)

theorem a85Go_dstep3 (x : Nat) (rest result : List Nat) (g : Nat) :
    a85Go ((x % 85 + 33) :: rest) result g 3 =
      a85Go rest result ((g * 85 + x % 85) % 4294967296) 4 :=
  a85Go_digit_step_mod x 3 rest result g (by decide)

theorem a85Go_dflush4 (x : Nat) (rest result : List Nat) (g : Nat) :
    a85Go ((x % 85 + 33) :: rest) result g 4 =
      a85Go rest (result ++ flushGroup ((g * 85 + x % 85) % 4294967296)) 0 0 :=
  a85Go_digit_flush_mod x 4 rest result g (by decide)

theorem flushGroup_pack (b0 b1 b2 b3 : Nat) (h0 : b0 < 256) (h1 : b1 < 256)
    (h2 : b2 < 256) (h3 : b3 < 256) :
    flushGroup (b0 * 16777216 + b1 * 65536 + b2 * 256 + b3) = [b0, b1, b2, b3] := by
  rw [flushGroup]
  simp only [List.cons.injEq, and_true]
  omega

theorem a85_acc_first (X : Nat) (hX : X < 85) :
    (0 * 85 + X % 85) % 4294967296 = X := by
  rw [Nat.zero_mul, Nat.zero_add, Nat.mod_eq_of_lt hX]
  exact Nat.mod_eq_of_lt (by omega)

theorem a85_acc_step (Y : Nat) (hY : Y < 4294967296) :
    (Y / 85 * 85 + Y % 85) % 4294967296 = Y := by
  rw [Nat.mul_comm, Nat.div_add_mod]
  exact Nat.mod_eq_of_lt hY

theorem a85_top_digit_lt (G : Nat) (hG : G < 4294967296) : G / 85 / 85 / 85 / 85 < 85 := by
  rw [Nat.div_div_eq_div_mul, Nat.div_div_eq_div_mul, Nat.div_div_eq_div_mul]
  exact Nat.div_lt_of_lt_mul (by omega)

theorem a85Go_digits5 (G : Nat) (hG : G < 4294967296) (rest result : List Nat) :
    a85Go (a85Digits G ++ rest) result 0 0 = a85Go rest (result ++ flushGroup G) 0 0 := by
  have henc : a85Digits G ++ rest =
      (G / 85 / 85 / 85 / 85 % 85 + 33) :: (G / 85 / 85 / 85 % 85 + 33) ::
      (G / 85 / 85 % 85 + 33) :: (G / 85 % 85 + 33) :: (G % 85 + 33) :: rest := rfl
  have hd1 : G / 85 ≤ G := Nat.div_le_self G 85
  have hd2 : G / 85 / 85 ≤ G := le_trans (Nat.div_le_self _ 85) hd1
  have hd3 : G / 85 / 85 / 85 ≤ G := le_trans (Nat.div_le_self _ 85) hd2
  rw [henc]
  simp only [a85Go_dstep0, a85Go_dstep1, a85Go_dstep2, a85Go_dstep3, a85Go_dflush4]
  rw [a85_acc_first _ (a85_top_digit_lt G hG),
    a85_acc_step (G / 85 / 85 / 85) (lt_of_le_of_lt hd3 hG),
    a85_acc_step (G / 85 / 85) (lt_of_le_of_lt hd2 hG),
    a85_acc_step (G / 85) (lt_of_le_of_lt hd1 hG),
    a85_acc_step G hG]

theorem a85_partial1 (b0 : Nat) (h0 : b0 < 256) (result : List Nat) :
    a85Go ((a85Digits (b0 * 16777216)).take 2 ++ [126, 62]) result 0 0 =
      .ok (result ++ [b0]) := by
  have henc : (a85Digits (b0 * 16777216)).take 2 ++ [126, 62] =
      (b0 * 16777216 / 85 / 85 / 85 / 85 % 85 + 33) ::
      (b0 * 16777216 / 85 / 85 / 85 % 85 + 33) :: [126, 62] := rfl
  have hGlt : b0 * 16777216 < 4294967296 := by omega
  have hd3 : b0 * 16777216 / 85 / 85 / 85 ≤ b0 * 16777216 :=
    le_trans (Nat.div_le_self _ 85)
      (le_trans (Nat.div_le_self _ 85) (Nat.div_le_self _ 85))
  have hq : b0 * 16777216 / 85 / 85 / 85 ≤ 6966 := by
    rw [Nat.div_div_eq_div_mul, Nat.div_div_eq_div_mul]
    exact le_trans
      (Nat.div_le_div_right (show b0 * 16777216 ≤ 4278190080 by omega))
      (by norm_num)
  have hdm : 614125 * (b0 * 16777216 / 85 / 85 / 85) + b0 * 16777216 % 614125 =
      b0 * 16777216 := by
    rw [Nat.div_div_eq_div_mul, Nat.div_div_eq_div_mul]
    exact Nat.div_add_mod _ 614125
  have hrlt : b0 * 16777216 % 614125 < 614125 := Nat.mod_lt _ (by norm_num)
  rw [henc]
  simp only [a85Go_dstep0, a85Go_dstep1, a85Go_dstep2, a85Go_dstep3, a85Go_tilde]
  rw [a85Finish, if_pos (by omega : (0 : Nat) < 2)]
  rw [show List.range (5 - 2) = [0, 1, 2] from rfl, show List.range (2 - 1) = [0] from rfl]
  simp only [List.foldl_cons, List.foldl_nil, List.map_cons, List.map_nil]
  rw [show (2 : Nat) ^ (24 - 0 * 8) = 16777216 from rfl]
  rw [a85_acc_first _ (a85_top_digit_lt _ hGlt),
    a85_acc_step (b0 * 16777216 / 85 / 85 / 85) (lt_of_le_of_lt hd3 hGlt)]
  rw [show (b0 * 16777216 / 85 / 85 / 85 * 85 + 84) % 4294967296 =
    b0 * 16777216 / 85 / 85 / 85 * 85 + 84 from Nat.mod_eq_of_lt (by omega)]
  rw [show ((b0 * 16777216 / 85 / 85 / 85 * 85 + 84) * 85 + 84) % 4294967296 =
    (b0 * 16777216 / 85 / 85 / 85 * 85 + 84) * 85 + 84 from Nat.mod_eq_of_lt (by omega)]
  rw [show (((b0 * 16777216 / 85 / 85 / 85 * 85 + 84) * 85 + 84) * 85 + 84) % 4294967296 =
    ((b0 * 16777216 / 85 / 85 / 85 * 85 + 84) * 85 + 84) * 85 + 84 from
    Nat.mod_eq_of_lt (by omega)]
  refine congrArg (fun z => Except.ok (result ++ z)) ?_
  simp only [List.cons.injEq, and_true]
  rw [show ((b0 * 16777216 / 85 / 85 / 85 * 85 + 84) * 85 + 84) * 85 + 84 =
    16777216 * b0 + (614124 - b0 * 16777216 % 614125) from by omega]
  rw [Nat.mul_add_div (by norm_num), Nat.div_eq_of_lt (by omega), Nat.add_zero]
  exact Nat.mod_eq_of_lt h0

theorem a85_partial2 (b0 b1 : Nat) (h0 : b0 < 256) (h1 : b1 < 256) (result : List Nat) :
    a85Go ((a85Digits (b0 * 16777216 + b1 * 65536)).take 3 ++ [126, 62]) result 0 0 =
      .ok (result ++ [b0, b1]) := by
  have henc : (a85Digits (b0 * 16777216 + b1 * 65536)).take 3 ++ [126, 62] =
      ((b0 * 16777216 + b1 * 65536) / 85 / 85 / 85 / 85 % 85 + 33) ::
      ((b0 * 16777216 + b1 * 65536) / 85 / 85 / 85 % 85 + 33) ::
      ((b0 * 16777216 + b1 * 65536) / 85 / 85 % 85 + 33) :: [126, 62] := rfl
  have hGlt : b0 * 16777216 + b1 * 65536 < 4294967296 := by omega
  have hd2 : (b0 * 16777216 + b1 * 65536) / 85 / 85 ≤ b0 * 16777216 + b1 * 65536 :=
    le_trans (Nat.div_le_self _ 85) (Nat.div_le_self _ 85)
  have hd3 : (b0 * 16777216 + b1 * 65536) / 85 / 85 / 85 ≤ b0 * 16777216 + b1 * 65536 :=
    le_trans (Nat.div_le_self _ 85) hd2
  have hq : (b0 * 16777216 + b1 * 65536) / 85 / 85 ≤ 594450 := by
    rw [Nat.div_div_eq_div_mul]
    exact le_trans
      (Nat.div_le_div_right (show b0 * 16777216 + b1 * 65536 ≤ 4294901760 by omega))
      (by norm_num)
  have hdm : 7225 * ((b0 * 16777216 + b1 * 65536) / 85 / 85) +
      (b0 * 16777216 + b1 * 65536) % 7225 = b0 * 16777216 + b1 * 65536 := by
    rw [Nat.div_div_eq_div_mul]
    exact Nat.div_add_mod _ 7225
  have hrlt : (b0 * 16777216 + b1 * 65536) % 7225 < 7225 := Nat.mod_lt _ (by norm_num)
  rw [henc]
  simp only [a85Go_dstep0, a85Go_dstep1, a85Go_dstep2, a85Go_dstep3, a85Go_tilde]
  rw [a85Finish, if_pos (by omega : (0 : Nat) < 3)]
  rw [show List.range (5 - 3) = [0, 1] from rfl]
  simp only [List.foldl_cons, List.foldl_nil, List.map_cons, List.map_nil]
  rw [show (2 : Nat) ^ (24 - 0 * 8) = 16777216 from rfl,
    show (2 : Nat) ^ (24 - 1 * 8) = 65536 from rfl]
  rw [a85_acc_first _ (a85_top_digit_lt _ hGlt),
    a85_acc_step ((b0 * 16777216 + b1 * 65536) / 85 / 85 / 85) (lt_of_le_of_lt hd3 hGlt),
    a85_acc_step ((b0 * 16777216 + b1 * 65536) / 85 / 85) (lt_of_le_of_lt hd2 hGlt)]
  rw [show ((b0 * 16777216 + b1 * 65536) / 85 / 85 * 85 + 84) % 4294967296 =
    (b0 * 16777216 + b1 * 65536) / 85 / 85 * 85 + 84 from Nat.mod_eq_of_lt (by omega)]
  rw [show (((b0 * 16777216 + b1 * 65536) / 85 / 85 * 85 + 84) * 85 + 84) % 4294967296 =
    ((b0 * 16777216 + b1 * 65536) / 85 / 85 * 85 + 84) * 85 + 84 from
    Nat.mod_eq_of_lt (by omega)]
  refine congrArg (fun z => Except.ok (result ++ z)) ?_
  simp only [List.cons.injEq, and_true]
  constructor
  · rw [show ((b0 * 16777216 + b1 * 65536) / 85 / 85 * 85 + 84) * 85 + 84 =
      16777216 * b0 + (b1 * 65536 + (7224 - (b0 * 16777216 + b1 * 65536) % 7225)) from
      by omega]
    rw [Nat.mul_add_div (by norm_num), Nat.div_eq_of_lt (by omega), Nat.add_zero]
    exact Nat.mod_eq_of_lt h0
  · rw [show ((b0 * 16777216 + b1 * 65536) / 85 / 85 * 85 + 84) * 85 + 84 =
      65536 * (256 * b0 + b1) + (7224 - (b0 * 16777216 + b1 * 65536) % 7225) from by omega]
    rw [Nat.mul_add_div (by norm_num), Nat.div_eq_of_lt (by omega), Nat.add_zero,
      Nat.mul_add_mod]
    exact Nat.mod_eq_of_lt h1

theorem a85_partial3 (b0 b1 b2 : Nat) (h0 : b0 < 256) (h1 : b1 < 256) (h2 : b2 < 256)
    (result : List Nat) :
    a85Go ((a85Digits (b0 * 16777216 + b1 * 65536 + b2 * 256)).take 4 ++ [126, 62])
      result 0 0 = .ok (result ++ [b0, b1, b2]) := by
  have henc : (a85Digits (b0 * 16777216 + b1 * 65536 + b2 * 256)).take 4 ++ [126, 62] =
      ((b0 * 16777216 + b1 * 65536 + b2 * 256) / 85 / 85 / 85 / 85 % 85 + 33) ::
      ((b0 * 16777216 + b1 * 65536 + b2 * 256) / 85 / 85 / 85 % 85 + 33) ::
      ((b0 * 16777216 + b1 * 65536 + b2 * 256) / 85 / 85 % 85 + 33) ::
      ((b0 * 16777216 + b1 * 65536 + b2 * 256) / 85 % 85 + 33) :: [126, 62] := rfl
  have hGlt : b0 * 16777216 + b1 * 65536 + b2 * 256 < 4294967296 := by omega
  have hd1 : (b0 * 16777216 + b1 * 65536 + b2 * 256) / 85 ≤
      b0 * 16777216 + b1 * 65536 + b2 * 256 := Nat.div_le_self _ 85
  have hd2 : (b0 * 16777216 + b1 * 65536 + b2 * 256) / 85 / 85 ≤
      b0 * 16777216 + b1 * 65536 + b2 * 256 := le_trans (Nat.div_le_self _ 85) hd1
  have hd3 : (b0 * 16777216 + b1 * 65536 + b2 * 256) / 85 / 85 / 85 ≤
      b0 * 16777216 + b1 * 65536 + b2 * 256 := le_trans (Nat.div_le_self _ 85) hd2
  have hq : (b0 * 16777216 + b1 * 65536 + b2 * 256) / 85 ≤ 50529024 :=
    le_trans
      (Nat.div_le_div_right
        (show b0 * 16777216 + b1 * 65536 + b2 * 256 ≤ 4294967040 by omega))
      (by norm_num)
  have hdm : 85 * ((b0 * 16777216 + b1 * 65536 + b2 * 256) / 85) +
      (b0 * 16777216 + b1 * 65536 + b2 * 256) % 85 =
      b0 * 16777216 + b1 * 65536 + b2 * 256 := Nat.div_add_mod _ 85
  have hrlt : (b0 * 16777216 + b1 * 65536 + b2 * 256) % 85 < 85 :=
    Nat.mod_lt _ (by norm_num)
  rw [henc]
  simp only [a85Go_dstep0, a85Go_dstep1, a85Go_dstep2, a85Go_dstep3, a85Go_tilde]
  rw [a85Finish, if_pos (by omega : (0 : Nat) < 4)]
  rw [show List.range (5 - 4) = [0] from rfl, show List.range (4 - 1) = [0, 1, 2] from rfl]
  simp only [List.foldl_cons, List.foldl_nil, List.map_cons, List.map_nil]
  rw [show (2 : Nat) ^ (24 - 0 * 8) = 16777216 from rfl,
    show (2 : Nat) ^ (24 - 1 * 8) = 65536 from rfl,
    show (2 : Nat) ^ (24 - 2 * 8) = 256 from rfl]
  rw [a85_acc_first _ (a85_top_digit_lt _ hGlt),
    a85_acc_step ((b0 * 16777216 + b1 * 65536 + b2 * 256) / 85 / 85 / 85)
      (lt_of_le_of_lt hd3 hGlt),
    a85_acc_step ((b0 * 16777216 + b1 * 65536 + b2 * 256) / 85 / 85)
      (lt_of_le_of_lt hd2 hGlt),
    a85_acc_step ((b0 * 16777216 + b1 * 65536 + b2 * 256) / 85)
      (lt_of_le_of_lt hd1 hGlt)]
  rw [show ((b0 * 16777216 + b1 * 65536 + b2 * 256) / 85 * 85 + 84) % 4294967296 =
    (b0 * 16777216 + b1 * 65536 + b2 * 256) / 85 * 85 + 84 from Nat.mod_eq_of_lt (by omega)]
  refine congrArg (fun z => Except.ok (result ++ z)) ?_
  simp only [List.cons.injEq, and_true]
  refine ⟨?_, ?_, ?_⟩
  · rw [show (b0 * 16777216 + b1 * 65536 + b2 * 256) / 85 * 85 + 84 =
      16777216 * b0 +
        (b1 * 65536 + b2 * 256 +
          (84 - (b0 * 16777216 + b1 * 65536 + b2 * 256) % 85)) from by omega]
    rw [Nat.mul_add_div (by norm_num), Nat.div_eq_of_lt (by omega), Nat.add_zero]
    exact Nat.mod_eq_of_lt h0
  · rw [show (b0 * 16777216 + b1 * 65536 + b2 * 256) / 85 * 85 + 84 =
      65536 * (256 * b0 + b1) +
        (b2 * 256 + (84 - (b0 * 16777216 + b1 * 65536 + b2 * 256) % 85)) from by omega]
    rw [Nat.mul_add_div (by norm_num), Nat.div_eq_of_lt (by omega), Nat.add_zero,
      Nat.mul_add_mod]
    exact Nat.mod_eq_of_lt h1
  · rw [show (b0 * 16777216 + b1 * 65536 + b2 * 256) / 85 * 85 + 84 =
      256 * (256 * (256 * b0 + b1) + b2) +
        (84 - (b0 * 16777216 + b1 * 65536 + b2 * 256) % 85) from by omega]
    rw [Nat.mul_add_div (by norm_num), Nat.div_eq_of_lt (by omega), Nat.add_zero,
      Nat.mul_add_mod]
    exact Nat.mod_eq_of_lt h2

theorem a85_roundtrip_go (data : List Nat) :
    ∀ result, (∀ x ∈ data, x < 256) →
      a85Go (a85EncGo data ++ [126, 62]) result 0 0 = .ok (result ++ data) := by
  match data with
  | [] =>
    intro result _
    rw [a85EncGo, List.nil_append, a85Go_tilde]
    simp [a85Finish]
  | [b0] =>
    intro result h
    rw [a85EncGo]
    exact a85_partial1 b0 (h b0 (by simp)) result
  | [b0, b1] =>
    intro result h
    rw [a85EncGo]
    exact a85_partial2 b0 b1 (h b0 (by simp)) (h b1 (by simp)) result
  | [b0, b1, b2] =>
    intro result h
    rw [a85EncGo]
    exact a85_partial3 b0 b1 b2 (h b0 (by simp)) (h b1 (by simp)) (h b2 (by simp)) result
  | b0 :: b1 :: b2 :: b3 :: rest =>
    intro result h
    have hb0 : b0 < 256 := h b0 (by simp)
    have hb1 : b1 < 256 := h b1 (by simp)
    have hb2 : b2 < 256 := h b2 (by simp)
    have hb3 : b3 < 256 := h b3 (by simp)
    have hrest : ∀ x ∈ rest, x < 256 := fun x hx => h x (by simp [hx])
    rw [a85EncGo]
    by_cases hz : b0 * 16777216 + b1 * 65536 + b2 * 256 + b3 = 0
    · rw [if_pos hz, List.cons_append, a85Go_z_boundary,
        a85_roundtrip_go rest (result ++ [0, 0, 0, 0]) hrest]
      have h0 : b0 = 0 := by omega
      have h1 : b1 = 0 := by omega
      have h2 : b2 = 0 := by omega
      have h3 : b3 = 0 := by omega
      subst h0
      subst h1
      subst h2
      subst h3
      simp
    · rw [if_neg hz, List.append_assoc, a85Go_digits5 _ (by omega) _ result,
        a85_roundtrip_go rest
          (result ++ flushGroup (b0 * 16777216 + b1 * 65536 + b2 * 256 + b3)) hrest,
        flushGroup_pack b0 b1 b2 b3 hb0 hb1 hb2 hb3]
      simp
termination_by data.length
decreasing_by
  · simp only [List.length_cons]
    omega
  · simp only [List.length_cons]
    omega

/-- C2: for every byte buffer (all entries below 256, including the empty
buffer), decode_ascii85 (encode_ascii85 b) succeeds and returns exactly b;
encoding the empty buffer yields exactly the two bytes 126, 62 (tilde,
greater-than), and decoding that back yields the empty buffer. -/
theorem ascii85_roundtrip :
    (∀ b : List Nat, (∀ x ∈ b, x < 256) → decode_ascii85 (encode_ascii85 b) = .ok b) ∧
    encode_ascii85 [] = [126, 62] ∧
    decode_ascii85 [126, 62] = .ok [] := by
  refine ⟨fun b hb => ?_, rfl, rfl⟩
  rw [decode_ascii85, encode_ascii85]
  have h := a85_roundtrip_go b [] hb
  rw [List.nil_append] at h
  exact h

/-- Closed witness for C2: the round trip applied to the bytes of Hello and
to a buffer exercising the z shorthand and a partial final group. -/
theorem ascii85_roundtrip_witness :
    decode_ascii85 (encode_ascii85 [72, 101, 108, 108, 111]) = .ok [72, 101, 108, 108, 111] ∧
    decode_ascii85 (encode_ascii85 [0, 0, 0, 0, 255, 1]) = .ok [0, 0, 0, 0, 255, 1] :=
  ⟨ascii85_roundtrip.1 [72, 101, 108, 108, 111] (by decide),
   ascii85_roundtrip.1 [0, 0, 0, 0, 255, 1] (by decide)⟩

end NanoPdf
